import Mathlib

/-!
# Verification of the iterm-mcp command-dispatch core

This development gives a shallow embedding of the iterm-mcp server's core
logic and proves properties of it.  TypeScript strings are modelled as
`List Char`; the AppleScript automation bridge is modelled by explicit
state passing over a list of open sessions; fallible operations return
`Except`.  Sources embedded here:

* `src/SendControlCharacter.ts` — control-code mapping and validation;
* `src/CommandExecutor.ts` — AppleScript escaping (single- and multi-line),
  the CPU-debounce completion detector `isWaitingForUserInput`, and the
  dispatcher's wait loop;
* `src/TtyOutputReader.ts` — buffer retrieval, trailing-line slicing and
  `filterBase64Content`;
* `src/index.ts` — tool dispatch, in particular resolution of an omitted
  `ttyPath` argument (together with the alternate dispatcher variant of
  the same file shipped in the repository).
-/

namespace ItermMcp

/-! ## Basic character and string model

JavaScript's `String.prototype.toUpperCase`, restricted to the ASCII
range used by this program, maps `a`–`z` to `A`–`Z` and leaves every
other character unchanged.  This is exactly core `Char.toUpper`
(`if 97 ≤ toNat ∧ toNat ≤ 122 then ofNat (toNat - 32) else c`). -/

/-- JS `s.toUpperCase()` on the ASCII fragment: uppercase each character. -/
def jsUpper (s : List Char) : List Char := s.map Char.toUpper

/-! ## SendControlCharacter (`src/SendControlCharacter.ts`, `send`)

```ts
if (letter.toUpperCase() === ']') { controlCode = 29; }
else if (letter.toUpperCase() === 'ESCAPE' || letter.toUpperCase() === 'ESC') { controlCode = 27; }
else {
  letter = letter.toUpperCase();
  if (!/^[A-Z]$/.test(letter)) { throw new Error('Invalid control character letter'); }
  controlCode = letter.charCodeAt(0) - 64;
}
```
The regex `/^[A-Z]$/` holds exactly of one-character strings whose
character code lies in `[65, 90]`. -/

/-- The control-code mapping of `SendControlCharacter.send`, `none` when the
`Invalid control character letter` error is thrown. -/
def controlCode (letter : List Char) : Option Nat :=
  if jsUpper letter = [']'] then some 29
  else if jsUpper letter = "ESCAPE".toList ∨ jsUpper letter = "ESC".toList then some 27
  else
    match jsUpper letter with
    | [c] => if 65 ≤ c.toNat ∧ c.toNat ≤ 90 then some (c.toNat - 64) else none
    | _ => none

/-- `/^[A-Z]$/.test(letter)` before uppercasing: a single basic-latin letter. -/
def isSingleLetterAZ : List Char → Bool
  | [c] => (65 ≤ c.toNat && c.toNat ≤ 90) || (97 ≤ c.toNat && c.toNat ≤ 122)
  | _ => false

/-- `SendControlCharacter.send`, as result value plus the list of control
codes actually transmitted over the automation bridge.  The invalid-letter
error is thrown before the `osascript` invocation is built, so in that case
the bridge-call list is empty. -/
def sendTrace (letter : List Char) : Except (List Char) Nat × List Nat :=
  match controlCode letter with
  | none => (Except.error "Invalid control character letter".toList, [])
  | some code => (Except.ok code, [code])

/-! ## Completion detector (`src/CommandExecutor.ts`, `isWaitingForUserInput`)

```ts
async isWaitingForUserInput(ttyPath: string): Promise<boolean> {
  let fd;
  try {
    fd = openSync(ttyPath, 'r');
    const tracker = new ProcessTracker();
    let belowThresholdTime = 0;
    while (true) {
      try {
        const activeProcess = await tracker.getActiveProcess(ttyPath);
        if (!activeProcess) return true;
        if (activeProcess.metrics.totalCPUPercent < 1) {
          belowThresholdTime += 350;
          if (belowThresholdTime >= 1000) return true;
        } else {
          belowThresholdTime = 0;
        }
      } catch { return true; }
      await sleep(350);
    }
  } catch (error: unknown) {
    return true;
  } finally {
    if (fd !== undefined) { closeSync(fd); }
    return true;
  }
}
```
The probe (`ProcessTracker.getActiveProcess`) is external; a run of the
loop is determined by the sequence of its outcomes, 350 ms apart. -/

/-- Outcome of one `tracker.getActiveProcess(ttyPath)` probe inside
`CommandExecutor.isWaitingForUserInput`: no foreground process, a thrown
probe error, or a process snapshot carrying `metrics.totalCPUPercent`. -/
inductive ProbeResult where
  | noProcess
  | probeError
  | proc (cpu : ℚ)
deriving DecidableEq

/-- The polling loop of `isWaitingForUserInput`, run over a finite list of
successive probe outcomes.  The accumulator is the `belowThresholdTime`
variable in milliseconds (each low-CPU sample adds 350 ms before the
`>= 1000` check).  The result is the value of the `return` statement that
fired together with the number of samples consumed; `none` means the list
was exhausted with the loop still polling. -/
def detect : List ProbeResult → Nat → Option (Bool × Nat)
  | [], _ => none
  | ProbeResult.noProcess :: _, _ => some (true, 1)
  | ProbeResult.probeError :: _, _ => some (true, 1)
  | ProbeResult.proc cpu :: rest, belowThresholdTime =>
    if cpu < 1 then
      if 1000 ≤ belowThresholdTime + 350 then some (true, 1)
      else (detect rest (belowThresholdTime + 350)).map (fun p => (p.1, p.2 + 1))
    else (detect rest 0).map (fun p => (p.1, p.2 + 1))

/-- Sample `i` exists and is an active process with CPU below 1%. -/
def lowAt (s : List ProbeResult) (i : Nat) : Prop :=
  ∃ c, s[i]? = some (ProbeResult.proc c) ∧ c < 1

/-! ## C10: `isWaitingForUserInput` always returns `true` -/

/-- The `try` body of `isWaitingForUserInput` together with the outer
`catch`: a failed `openSync` lands in the catch and returns `true`,
otherwise the polling loop runs. -/
def isWaitingBody (openOk : Bool) (samples : List ProbeResult) : Option Bool :=
  if openOk then (detect samples 0).map Prod.fst else some true

/-- `isWaitingForUserInput` including its `finally` block: in JavaScript a
`return true` inside `finally` replaces whatever the body returned (or
threw), so any terminating run produces `true`. -/
def isWaitingForUserInput (openOk : Bool) (samples : List ProbeResult) : Option Bool :=
  (isWaitingBody openOk samples).map (fun _ => true)

/-- The dispatcher's wait loop in `executeCommand`:
`while (await this.isWaitingForUserInput(ttyPath) === false) { await sleep(100); }`
run over the successive return values of `isWaitingForUserInput`; the
result counts how many times the sleeping loop body executed. -/
def waitForInputIters : List Bool → Option Nat
  | [] => none
  | b :: bs => if b = false then (waitForInputIters bs).map (· + 1) else some 0

/-! ## Script encoder (`src/CommandExecutor.ts`)

```ts
private escapeForAppleScript(str: string): string {
  if (str.includes('\n')) { return this.prepareMultilineCommand(str); }
  str = str.replace(/\\/g, '\\\\');
  str = str.replace(/"/g, '\\"');
  str = str.replace(/'/g, "'\\''");
  str = str.replace(/[^\x20-\x7E]/g, (char) => {
    return '\\u' + char.charCodeAt(0).toString(16).padStart(4, '0');
  });
  return str;
}
private prepareMultilineCommand(str: string): string {
  const lines = str.split('\n');
  let applescriptString = '"' + this.escapeAppleScriptString(lines[0]) + '"';
  for (let i = 1; i < lines.length; i++) {
    applescriptString += ' & return & "' + this.escapeAppleScriptString(lines[i]) + '"';
  }
  return applescriptString;
}
private escapeAppleScriptString(str: string): string {
  return str.replace(/\\/g, '\\\\').replace(/"/g, '\\"').replace(/\t/g, '\\t');
}
```
-/

/-- JS `str.split(sep)` for a one-character separator. -/
def splitChar (sep : Char) : List Char → List (List Char)
  | [] => [[]]
  | c :: cs =>
    if c = sep then [] :: splitChar sep cs
    else
      match splitChar sep cs with
      | [] => [[c]]
      | h :: t => (c :: h) :: t

/-- JS `Array.prototype.join(sep)`. -/
def joinWith (sep : List Char) : List (List Char) → List Char
  | [] => []
  | l :: ls => l ++ ls.flatMap (fun x => sep ++ x)

/-- JS `str.replace(/pat/g, rep)` for a one-character pattern. -/
def replaceChar (pat : Char) (rep : List Char) (s : List Char) : List Char :=
  s.flatMap fun c => if c = pat then rep else [c]

def escapeAppleScriptString (s : List Char) : List Char :=
  replaceChar '\t' ['\\', 't'] (replaceChar '"' ['\\', '"'] (replaceChar '\\' ['\\', '\\'] s))

def escChar (c : Char) : List Char :=
  if c = '\\' then ['\\', '\\']
  else if c = '"' then ['\\', '"']
  else if c = '\t' then ['\\', 't']
  else [c]

def prepareMultilineCommand (str : List Char) : List Char :=
  match splitChar '\n' str with
  | [] => []
  | l0 :: rest =>
    ('"' :: (escapeAppleScriptString l0 ++ ['"']))
      ++ rest.flatMap
          (fun l => " & return & \"".toList ++ (escapeAppleScriptString l ++ ['"']))

def multilineSegments (str : List Char) : List (List Char) :=
  (splitChar '\n' str).map escapeAppleScriptString

/-- Modelled from the spec: a compliant host evaluates each double-quoted
segment by undoing the backslash escapes. -/
def appleUnescape : List Char → List Char
  | [] => []
  | [c] => [c]
  | a :: b :: rest =>
    if a = '\\' then (if b = 't' then '\t' else b) :: appleUnescape rest
    else a :: appleUnescape (b :: rest)

/-- Lower-case hex digits of `n`, most significant first (JS
`n.toString(16)` without the `n = 0` special case).  The first argument is
recursion fuel; `fuel ≥ n` always suffices since `n / 16 < n` for `n ≠ 0`. -/
def hexDigitsAux : Nat → Nat → List Char
  | 0, _ => []
  | fuel + 1, n =>
    if n = 0 then [] else hexDigitsAux fuel (n / 16) ++ [Nat.digitChar (n % 16)]

/-- JS `n.toString(16)`: lower-case hex, `"0"` for zero. -/
def jsHex (n : Nat) : List Char :=
  if n = 0 then ['0'] else hexDigitsAux n n

/-- JS `s.padStart(4, '0')`. -/
def pad4 (l : List Char) : List Char :=
  List.replicate (4 - l.length) '0' ++ l

/-- The `str.replace(/[^\x20-\x7E]/g, char => ...)` step: every character
outside printable ASCII becomes `\u` plus 4 zero-padded hex digits. -/
def replaceNonPrintable (s : List Char) : List Char :=
  s.flatMap fun c =>
    if 32 ≤ c.toNat ∧ c.toNat ≤ 126 then [c]
    else '\\' :: 'u' :: pad4 (jsHex c.toNat)

/-- The single-line branch of `escapeForAppleScript`: the four sequential
`replace` calls of the source, in order. -/
def escapeSingleLine (s : List Char) : List Char :=
  replaceNonPrintable
    (replaceChar '\'' ['\'', '\\', '\'', '\'']
      (replaceChar '"' ['\\', '"']
        (replaceChar '\\' ['\\', '\\'] s)))

/-- `CommandExecutor.escapeForAppleScript`. -/
def escapeForAppleScript (str : List Char) : List Char :=
  if str.contains '\n' then prepareMultilineCommand str
  else escapeSingleLine str

/-- Per-character description of the single-line escaping, as the spec
states it: backslash doubled, double quote backslash-prefixed, single
quote turned into the close-escape-reopen sequence, characters outside
printable ASCII into a 4-digit `\uXXXX` escape, everything else unchanged. -/
def escSingleChar (c : Char) : List Char :=
  if c = '\\' then ['\\', '\\']
  else if c = '"' then ['\\', '"']
  else if c = '\'' then ['\'', '\\', '\'', '\'']
  else if 32 ≤ c.toNat ∧ c.toNat ≤ 126 then [c]
  else '\\' :: 'u' :: pad4 (jsHex c.toNat)

/-- Membership in the base64 alphabet `[A-Za-z0-9+/]` of the filter regex. -/
def isB64 (c : Char) : Bool :=
  (65 ≤ c.toNat && c.toNat ≤ 90) || (97 ≤ c.toNat && c.toNat ≤ 122) ||
  (48 ≤ c.toNat && c.toNat ≤ 57) || c = '+' || c = '/'

def b64Placeholder : List Char := "[BASE64_IMAGE_CONTENT_FILTERED]".toList

/-- Left-to-right scanner implementing the global replacement of the
base64 pattern (alphabet run of length at least 100, then up to two `=`)
by the placeholder: `run` accumulates the current maximal base64-alphabet
run; when the run ends (non-alphabet character or end of input) a run of
length at least 100, together with up to two `=` padding characters
immediately following it, collapses to the placeholder, while shorter
runs are emitted unchanged. -/
def goB64 (run : List Char) : List Char → List Char
  | [] => if 100 ≤ run.length then b64Placeholder else run
  | c :: cs =>
    if isB64 c then goB64 (run ++ [c]) cs
    else
      (if 100 ≤ run.length then b64Placeholder else run) ++
        (if 100 ≤ run.length ∧ c = '=' then
          match cs with
          | '=' :: cs2 => goB64 [] cs2
          | cs3 => goB64 [] cs3
        else c :: goB64 [] cs)
termination_by s => s.length
decreasing_by all_goals (simp_wf; try omega)

def imgcatHeader : List Char := "\x1b]1337;File=".toList

def imgcatPlaceholder : List Char := "[IMGCAT_PREFIX_FILTERED]".toList

/-- Matcher for the tail of the IMGCAT regex after the literal prefix
(one or more non-colon characters, an optional colon-led chunk of
non-newline characters, then a newline), returning the remainder of the
input after the match.  The first argument bounds the length of the
leftmost-greedy first chunk and decreases as the matcher backtracks;
starting it at the maximal colon-free run length gives the regex's
greedy behaviour. -/
def imgTailGo : Nat → List Char → Option (List Char)
  | 0, _ => none
  | n + 1, r =>
    (if n + 1 ≤ r.length ∧ (r.take (n + 1)).all (fun c => c ≠ ':') = true then
      (match r.drop (n + 1) with
        | ':' :: r2 =>
          (let p2 := r2.takeWhile (fun c => c ≠ '\n')
           if p2.isEmpty then none
           else
             match r2.drop p2.length with
             | '\n' :: rest2 => some rest2
             | _ => none)
        | _ => none).orElse
        (fun _ =>
          match r.drop (n + 1) with
          | '\n' :: rest2 => some rest2
          | _ => none)
    else none).orElse (fun _ => imgTailGo n r)

def imgTail (r : List Char) : Option (List Char) :=
  imgTailGo (r.takeWhile (fun c => c ≠ ':')).length r

/-- Scanner for the global replacement of the IMGCAT control sequence
(escape, `]1337;File=`, the tail matched by `imgTail`) by
`[IMGCAT_PREFIX_FILTERED]` plus a newline.  A match can only start at an
escape character.  The fuel argument only serves termination; one unit is
spent per character or match, so fuel equal to the input length always
suffices. -/
def goImg : Nat → List Char → List Char
  | 0, s => s
  | _ + 1, [] => []
  | fuel + 1, c :: cs =>
    if imgcatHeader.isPrefixOf (c :: cs) then
      match imgTail ((c :: cs).drop imgcatHeader.length) with
      | some rest => imgcatPlaceholder ++ '\n' :: goImg fuel rest
      | none => c :: goImg fuel cs
    else c :: goImg fuel cs

/-- `TtyOutputReader.filterBase64Content`: first the base64-run
replacement, then the IMGCAT prefix replacement. -/
def filterBase64Content (content : List Char) : List Char :=
  goImg (goB64 [] content).length (goB64 [] content)

/-- JS `Array.prototype.slice(start)` (single argument). -/
def jsSliceFrom {α : Type} (start : Int) (l : List α) : List α :=
  if start < 0 then l.drop (l.length - (-start).toNat) else l.drop start.toNat

/-- `TtyOutputReader.call` applied to an already-retrieved buffer:
optionally filter base64 content, then
`buffer.split('\n').slice(-linesOfOutput - 1).join('\n')` unless
`linesOfOutput` is absent or `0` (JS falsiness). -/
def ttyCall (buffer : List Char) (linesOfOutput : Option Nat) (filterB64 : Bool) :
    List Char :=
  let processedBuffer := if filterB64 then filterBase64Content buffer else buffer
  match linesOfOutput with
  | none => processedBuffer
  | some n =>
    if n = 0 then processedBuffer
    else joinWith ['\n'] (jsSliceFrom (-(n : Int) - 1) (splitChar '\n' processedBuffer))

/-- Which session an operation addresses. -/
inductive SessionRef where
  | current
  | byPath (path : List Char)
deriving DecidableEq

/-- `src/index.ts`, tool dispatch:
`const ttyPath = request.params.arguments?.ttyPath ? String(request.params.arguments.ttyPath) : "/dev/ttys001";`
(JS truthiness: an absent — or empty — `ttyPath` argument selects the
fixed default `/dev/ttys001`). -/
def mainDispatchTty (arg : Option (List Char)) : List Char :=
  match arg with
  | some p => if p = [] then "/dev/ttys001".toList else p
  | none => "/dev/ttys001".toList

/-- The alternate dispatcher variant of `index.ts` in the repository:
`const ttyPath = request.params.arguments?.ttyPath ? String(request.params.arguments.ttyPath) : undefined;` -/
def altDispatchTty (arg : Option (List Char)) : Option (List Char) :=
  match arg with
  | some p => if p = [] then none else some p
  | none => none

/-- The `CommandExecutor` / `SendControlCharacter` constructor:
`this.targetTtyPath = targetTtyPath || null;` (an absent or empty argument
becomes `null`). -/
def ctorTarget (arg : Option (List Char)) : Option (List Char) :=
  match arg with
  | some p => if p = [] then none else some p
  | none => none

/-- Which session the generated AppleScript addresses: with `targetTtyPath`
null every component falls back to `current session of current window`,
otherwise it searches for the session whose tty equals the path. -/
def sessionRefOf (targetTtyPath : Option (List Char)) : SessionRef :=
  match targetTtyPath with
  | none => SessionRef.current
  | some p => SessionRef.byPath p

/-- One open iTerm session as seen by the AppleScript enumeration. -/
structure ItermSession where
  tty : List Char
  contents : List Char
deriving DecidableEq

/-- The window/tab/session enumeration with exact tty comparison common to
all three targeted scripts: the first session whose `tty` equals the
target. -/
def findSession (sessions : List ItermSession) (target : List Char) :
    Option ItermSession :=
  sessions.find? (fun s => s.tty == target)

def notFoundText (target : List Char) : List Char :=
  "Session with TTY ".toList ++ target ++ " not found".toList

/-- The AppleScript of `TtyOutputReader.retrieveBuffer` for a targeted tty:
it returns the found session's contents, and in the not-found case it
executes `return "Session with TTY " & targetTTY & " not found"` — a
normal string result, not an AppleScript `error`. -/
def runRetrieveScript (sessions : List ItermSession) (target : List Char) :
    Except (List Char) (List Char) :=
  match findSession sessions target with
  | some s => Except.ok s.contents
  | none => Except.ok (notFoundText target)

/-- The AppleScript of `CommandExecutor.executeCommand` for a targeted tty:
in the not-found case it raises
`error "Session with TTY " & targetTTY & " not found"`. -/
def runWriteScript (sessions : List ItermSession) (target : List Char) :
    Except (List Char) (List Char) :=
  match findSession sessions target with
  | some _ => Except.ok ("Command sent to ".toList ++ target)
  | none => Except.error (notFoundText target)

/-- The AppleScript of `SendControlCharacter.send` for a targeted tty: its
not-found branch raises an error whose message ends with a period. -/
def runControlScript (sessions : List ItermSession) (target : List Char) :
    Except (List Char) (List Char) :=
  match findSession sessions target with
  | some _ => Except.ok []
  | none =>
    Except.error ("Session with TTY ".toList ++ target ++ " not found.".toList)

/-- JS `String.prototype.trim` on the whitespace actually occurring here. -/
def jsTrim (s : List Char) : List Char :=
  ((s.dropWhile Char.isWhitespace).reverse.dropWhile Char.isWhitespace).reverse

/-- JS `String.prototype.includes`. -/
def containsSub (hay needle : List Char) : Bool :=
  hay.tails.any (fun t => needle.isPrefixOf t)

/-- The catch clause shared by all three operations: a message containing
`Session with TTY` is wrapped with the operation's context prefix; one
containing `Application isn\'t running` gets the host-unavailable hint;
anything else the bare context prefix. -/
def wrapCatch (prefixText : List Char) (hint : List Char) (msg : List Char) :
    List Char :=
  if containsSub msg ("Session with TTY".toList) then prefixText ++ msg
  else if containsSub msg ("Application isn".toList ++ '\'' :: "t running".toList) then
    prefixText ++ hint ++ msg
  else prefixText ++ msg

/-- `TtyOutputReader.retrieveBuffer`: on script success the trimmed stdout
is the buffer; a script error is wrapped by the catch clause. -/
def retrieveBuffer (sessions : List ItermSession) (target : List Char) :
    Except (List Char) (List Char) :=
  match runRetrieveScript sessions target with
  | Except.ok out => Except.ok (jsTrim out)
  | Except.error msg =>
    Except.error
      (wrapCatch ("Failed to retrieve buffer: ".toList)
        ("iTerm2 application might not be running. Original error: ".toList) msg)

/-- The bridge call plus catch clause of `CommandExecutor.executeCommand`
(the session-targeting part that decides success or failure kind). -/
def executeCommandResult (sessions : List ItermSession) (target : List Char) :
    Except (List Char) (List Char) :=
  match runWriteScript sessions target with
  | Except.ok out => Except.ok out
  | Except.error msg =>
    Except.error
      (wrapCatch ("Failed to execute command: ".toList)
        ("iTerm2 application might not be running. Original error: ".toList) msg)

/-- The bridge call plus catch clause of `SendControlCharacter.send`. -/
def sendControlResult (sessions : List ItermSession) (target : List Char) :
    Except (List Char) (List Char) :=
  match runControlScript sessions target with
  | Except.ok out => Except.ok out
  | Except.error msg =>
    Except.error
      (wrapCatch ("Failed to send control character: ".toList)
        ("iTerm2 application might not be running. Original error: ".toList) msg)

theorem isValidChar_of_lt_xd800 {n : Nat} (h : n < 0xd800) : n.isValidChar :=
  Or.inl h

theorem toNat_ofNat_valid {n : Nat} (h : n.isValidChar) :
    (Char.ofNat n).toNat = n := by
  rw [Char.ofNat, dif_pos h]
  rfl

theorem toNat_toUpper_of_lower {c : Char} (h1 : 97 ≤ c.toNat) (h2 : c.toNat ≤ 122) :
    (Char.toUpper c).toNat = c.toNat - 32 := by
  rw [Char.toUpper]
  simp only [ge_iff_le, h1, h2, and_self, if_true]
  exact toNat_ofNat_valid (isValidChar_of_lt_xd800 (by omega))

theorem toUpper_of_not_lower {c : Char} (h : ¬ (97 ≤ c.toNat ∧ c.toNat ≤ 122)) :
    Char.toUpper c = c := by
  rw [Char.toUpper]
  simp only [ge_iff_le, if_neg h]

theorem jsUpper_singleton (c : Char) : jsUpper [c] = [Char.toUpper c] := rfl

theorem controlCode_letter (c : Char)
    (h : (65 ≤ c.toNat ∧ c.toNat ≤ 90) ∨ (97 ≤ c.toNat ∧ c.toNat ≤ 122)) :
    controlCode [c] = some ((Char.toUpper c).toNat - 64) := by
  have hup : 65 ≤ (Char.toUpper c).toNat ∧ (Char.toUpper c).toNat ≤ 90 := by
    rcases h with h | h
    · rw [toUpper_of_not_lower (by omega)]; omega
    · rw [toNat_toUpper_of_lower h.1 h.2]; omega
  rw [controlCode, jsUpper_singleton]
  rw [if_neg, if_neg]
  · simp only [hup, and_self, if_true]
  · intro he
    rcases he with he | he <;> simp at he
  · intro he
    rw [List.cons.injEq] at he
    have : (Char.toUpper c).toNat = 93 := by rw [he.1]; rfl
    omega

theorem controlCode_escape (letter : List Char)
    (h : jsUpper letter = "ESC".toList ∨ jsUpper letter = "ESCAPE".toList) :
    controlCode letter = some 27 := by
  rcases h with h | h <;> rw [controlCode, h] <;> decide

theorem controlCode_invalid (letter : List Char)
    (h1 : letter ≠ [']'])
    (h2 : jsUpper letter ≠ "ESCAPE".toList)
    (h3 : jsUpper letter ≠ "ESC".toList)
    (h4 : isSingleLetterAZ letter = false) :
    controlCode letter = none := by
  match letter with
  | [] => decide
  | [d] =>
    simp only [isSingleLetterAZ, Bool.or_eq_false_iff, Bool.and_eq_false_iff,
      decide_eq_false_iff_not, not_le] at h4
    rw [controlCode, jsUpper_singleton, if_neg, if_neg]
    · by_cases hd : 97 ≤ d.toNat ∧ d.toNat ≤ 122
      · exfalso; omega
      · rw [toUpper_of_not_lower hd]
        show (if 65 ≤ d.toNat ∧ d.toNat ≤ 90 then some (d.toNat - 64) else none) = none
        rw [if_neg]
        omega
    · rintro (he | he) <;> simp at he
    · intro he
      rw [List.cons.injEq] at he
      by_cases hd : 97 ≤ d.toNat ∧ d.toNat ≤ 122
      · have : (Char.toUpper d).toNat = d.toNat - 32 := toNat_toUpper_of_lower hd.1 hd.2
        have h93 : (Char.toUpper d).toNat = 93 := by rw [he.1]; rfl
        omega
      · rw [toUpper_of_not_lower hd] at he
        exact h1 (by rw [he.1])
  | d :: e :: t =>
    rw [controlCode, if_neg, if_neg]
    · rfl
    · rintro (he | he)
      · exact h2 he
      · exact h3 he
    · intro he
      simp [jsUpper] at he

/-- C4: the control-character sender maps the literal `]` to code 29, the
strings `ESC`/`Escape` compared case-insensitively to code 27, and any single
upper- or lower-case letter A–Z to `ord(uppercase letter) - 64`; in particular
`A`/`a` map to 1, `C`/`c` to 3 and `Z` to 26. -/
theorem control_code_mapping :
    controlCode ("]".toList) = some 29 ∧
    (∀ letter : List Char,
      jsUpper letter = "ESC".toList ∨ jsUpper letter = "ESCAPE".toList →
      controlCode letter = some 27) ∧
    (∀ c : Char, (65 ≤ c.toNat ∧ c.toNat ≤ 90) ∨ (97 ≤ c.toNat ∧ c.toNat ≤ 122) →
      controlCode [c] = some ((Char.toUpper c).toNat - 64)) ∧
    controlCode ("A".toList) = some 1 ∧ controlCode ("a".toList) = some 1 ∧
    controlCode ("C".toList) = some 3 ∧ controlCode ("c".toList) = some 3 ∧
    controlCode ("Z".toList) = some 26 :=
  ⟨by decide, controlCode_escape, controlCode_letter,
   by decide, by decide, by decide, by decide, by decide⟩

/-- Witness for C4 at concrete inputs: the case-insensitive escape name
`Esc` maps to 27 and the lower-case letter `b` maps to code of `B` minus
64 (that is, 2). -/
theorem control_code_mapping_witness :
    controlCode ("Esc".toList) = some 27 ∧
    controlCode ['b'] = some ((Char.toUpper 'b').toNat - 64) :=
  ⟨control_code_mapping.2.1 ("Esc".toList) (by decide),
   control_code_mapping.2.2.1 'b' (by decide)⟩

/-- C5: for every letter input that is not `]`, not `ESC`/`Escape`
case-insensitively, and not a single letter A–Z, `send` raises the
`Invalid control character letter` error and performs no bridge call
(the transmitted-code list is empty). -/
theorem send_invalid_letter_no_bridge_call (letter : List Char)
    (h1 : letter ≠ [']'])
    (h2 : jsUpper letter ≠ "ESCAPE".toList)
    (h3 : jsUpper letter ≠ "ESC".toList)
    (h4 : isSingleLetterAZ letter = false) :
    sendTrace letter =
      (Except.error ("Invalid control character letter".toList), []) := by
  rw [sendTrace, controlCode_invalid letter h1 h2 h3 h4]

/-- Witness for C5: the digit `1` is rejected with no bridge call. -/
theorem send_invalid_letter_no_bridge_call_witness :
    sendTrace ("1".toList) =
      (Except.error ("Invalid control character letter".toList), []) :=
  send_invalid_letter_no_bridge_call ("1".toList)
    (by decide) (by decide) (by decide) (by decide)

theorem detect_low_tail (s : List ProbeResult) :
    ∀ acc b k, (∀ r ∈ s, ∃ c, r = ProbeResult.proc c) → detect s acc = some (b, k) →
      (∀ i, i < k → k ≤ i + 3 → lowAt s i) ∧ (3 ≤ k ∨ 1000 ≤ acc + 350 * k) := by
  induction s with
  | nil => intro acc b k _ h; simp [detect] at h
  | cons r rs ih =>
    intro acc b k hall h
    obtain ⟨c, rfl⟩ := hall r (List.mem_cons_self r rs)
    rw [detect] at h
    by_cases hc : c < 1
    · rw [if_pos hc] at h
      by_cases h1000 : 1000 ≤ acc + 350
      · rw [if_pos h1000] at h
        obtain ⟨-, rfl⟩ : b = true ∧ 1 = k := by
          simpa [eq_comm] using h
        refine ⟨?_, Or.inr (by omega)⟩
        intro i hik _
        interval_cases i
        exact ⟨c, by simp, hc⟩
      · rw [if_neg h1000] at h
        obtain ⟨⟨b', k'⟩, hd, hbk⟩ := Option.map_eq_some'.1 h
        obtain ⟨rfl, rfl⟩ : b' = b ∧ k' + 1 = k := by
          simpa [eq_comm] using hbk
        obtain ⟨C1, C2⟩ := ih (acc + 350) b' k'
          (fun r hr => hall r (List.mem_cons_of_mem _ hr)) hd
        constructor
        · intro i hik hk3
          match i with
          | 0 => exact ⟨c, by simp, hc⟩
          | j + 1 =>
            obtain ⟨c', hg, hc'⟩ := C1 j (by omega) (by omega)
            exact ⟨c', by simpa using hg, hc'⟩
        · rcases C2 with h3 | hge
          · exact Or.inl (by omega)
          · exact Or.inr (by omega)
    · rw [if_neg hc] at h
      obtain ⟨⟨b', k'⟩, hd, hbk⟩ := Option.map_eq_some'.1 h
      obtain ⟨rfl, rfl⟩ : b' = b ∧ k' + 1 = k := by
        simpa [eq_comm] using hbk
      obtain ⟨C1, C2⟩ := ih 0 b' k'
        (fun r hr => hall r (List.mem_cons_of_mem _ hr)) hd
      have hk3 : 3 ≤ k' := by rcases C2 with h3 | hge <;> omega
      constructor
      · intro i hik hle
        match i with
        | 0 => omega
        | j + 1 =>
          obtain ⟨c', hg, hc'⟩ := C1 j (by omega) (by omega)
          exact ⟨c', by simpa using hg, hc'⟩
      · exact Or.inl (by omega)

/-- C3: the detector reports readiness on a probe with no active process
immediately (first conjunct); a sample with CPU at or above 1% resets the
accumulated idle time to zero, so readiness is exactly that of the remaining
samples started from a zero accumulator (second conjunct); and whenever a
run over active-process samples declares readiness after `k` samples, then
`k ≥ 3` and the last three samples were all below the 1% threshold — the
1000 ms debounce window at 350 ms spacing requires three consecutive low
samples (third conjunct). -/
theorem completion_detector_debounce :
    (∀ (s : List ProbeResult) (acc : Nat),
      detect (ProbeResult.noProcess :: s) acc = some (true, 1)) ∧
    (∀ (cpu : ℚ) (s : List ProbeResult) (acc : Nat), 1 ≤ cpu →
      detect (ProbeResult.proc cpu :: s) acc
        = (detect s 0).map (fun p => (p.1, p.2 + 1))) ∧
    (∀ (s : List ProbeResult) (b : Bool) (k : Nat),
      (∀ r ∈ s, ∃ c, r = ProbeResult.proc c) → detect s 0 = some (b, k) →
      3 ≤ k ∧ ∀ i, i < k → k ≤ i + 3 → lowAt s i) := by
  refine ⟨fun s acc => rfl, fun cpu s acc hcpu => ?_, fun s b k hall h => ?_⟩
  · rw [detect, if_neg (not_lt.2 hcpu)]
  · obtain ⟨C1, C2⟩ := detect_low_tail s 0 b k hall h
    exact ⟨by omega, C1⟩

/-- Witness for C3, on the spec's own probe sequences: with CPU samples
`[5%, 0.5%, 0.5%, 0.5%]` the detector returns after the fourth sample (the
third consecutive low one) and the three final samples are low; a `5%`
spike mid-sequence in `[5%, 0.5%, 5%, 0.5%, 0.5%, 0.5%]` delays readiness
to the sixth sample; and a no-process probe is ready at once. -/
theorem completion_detector_debounce_witness :
    (3 ≤ 4 ∧ ∀ i, i < 4 → 4 ≤ i + 3 →
      lowAt [ProbeResult.proc 5, ProbeResult.proc (1/2), ProbeResult.proc (1/2),
        ProbeResult.proc (1/2)] i) ∧
    (3 ≤ 6 ∧ ∀ i, i < 6 → 6 ≤ i + 3 →
      lowAt [ProbeResult.proc 5, ProbeResult.proc (1/2), ProbeResult.proc 5,
        ProbeResult.proc (1/2), ProbeResult.proc (1/2), ProbeResult.proc (1/2)] i) ∧
    detect [ProbeResult.noProcess] 0 = some (true, 1) :=
  ⟨completion_detector_debounce.2.2 _ true 4
      (by
        intro r hr
        simp only [List.mem_cons, List.not_mem_nil, or_false] at hr
        rcases hr with rfl | rfl | rfl | rfl
        exacts [⟨5, rfl⟩, ⟨1/2, rfl⟩, ⟨1/2, rfl⟩, ⟨1/2, rfl⟩])
      (by norm_num [detect]),
   completion_detector_debounce.2.2 _ true 6
      (by
        intro r hr
        simp only [List.mem_cons, List.not_mem_nil, or_false] at hr
        rcases hr with rfl | rfl | rfl | rfl | rfl | rfl
        exacts [⟨5, rfl⟩, ⟨1/2, rfl⟩, ⟨5, rfl⟩, ⟨1/2, rfl⟩, ⟨1/2, rfl⟩, ⟨1/2, rfl⟩])
      (by norm_num [detect]),
   completion_detector_debounce.1 [] 0⟩

theorem detect_returns_true (s : List ProbeResult) :
    ∀ acc p, detect s acc = some p → p.1 = true := by
  induction s with
  | nil => intro acc p h; simp [detect] at h
  | cons r rs ih =>
    intro acc p h
    match r with
    | ProbeResult.noProcess =>
      rw [detect] at h
      injection h with h2
      rw [← h2]
    | ProbeResult.probeError =>
      rw [detect] at h
      injection h with h2
      rw [← h2]
    | ProbeResult.proc c =>
      rw [detect] at h
      by_cases hc : c < 1
      · rw [if_pos hc] at h
        by_cases h1000 : 1000 ≤ acc + 350
        · rw [if_pos h1000] at h
          injection h with h2
          rw [← h2]
        · rw [if_neg h1000] at h
          obtain ⟨p', hd, hp⟩ := Option.map_eq_some'.1 h
          rw [← hp]
          show p'.1 = true
          exact ih _ _ hd
      · rw [if_neg hc] at h
        obtain ⟨p', hd, hp⟩ := Option.map_eq_some'.1 h
        rw [← hp]
        show p'.1 = true
        exact ih _ _ hd

/-- C10: whenever `isWaitingForUserInput` terminates it returns `true` —
both the `try`/`catch` body's own return statements (first conjunct) and
the function including the overriding `finally` return (second conjunct)
yield `true` for every open-outcome and probe sequence — so the
dispatcher's wait-for-input-prompt loop in `executeCommand` executes its
sleep body zero times (third conjunct). -/
theorem is_waiting_always_true :
    (∀ (oc : Bool) (s : List ProbeResult) (b : Bool),
      isWaitingBody oc s = some b → b = true) ∧
    (∀ (oc : Bool) (s : List ProbeResult) (b : Bool),
      isWaitingForUserInput oc s = some b → b = true) ∧
    (∀ (oc : Bool) (s : List ProbeResult) (r : Bool) (more : List Bool),
      isWaitingForUserInput oc s = some r →
      waitForInputIters (r :: more) = some 0) := by
  have hbody : ∀ (oc : Bool) (s : List ProbeResult) (b : Bool),
      isWaitingBody oc s = some b → b = true := by
    intro oc s b h
    rw [isWaitingBody] at h
    match oc with
    | false => simpa [eq_comm] using h
    | true =>
      rw [if_pos rfl] at h
      obtain ⟨p, hd, hp⟩ := Option.map_eq_some'.1 h
      rw [← hp]
      exact detect_returns_true s 0 p hd
  have hfin : ∀ (oc : Bool) (s : List ProbeResult) (b : Bool),
      isWaitingForUserInput oc s = some b → b = true := by
    intro oc s b h
    rw [isWaitingForUserInput] at h
    obtain ⟨p, -, hp⟩ := Option.map_eq_some'.1 h
    exact hp.symm
  refine ⟨hbody, hfin, fun oc s r more h => ?_⟩
  rw [hfin oc s r h, waitForInputIters]
  simp

/-- Witness for C10: a run that fails to open the tty, a run whose probe
reports no process, and a run that errors while probing all return `true`,
and the dispatcher loop then runs zero sleep iterations. -/
theorem is_waiting_always_true_witness :
    (true = true) ∧
    waitForInputIters [true, false] = some 0 ∧
    waitForInputIters [true] = some 0 :=
  ⟨is_waiting_always_true.2.1 false [] true rfl,
   is_waiting_always_true.2.2 false [] true [false] rfl,
   is_waiting_always_true.2.2 true [ProbeResult.probeError] true [] rfl⟩

theorem splitChar_ne_nil (sep : Char) (s : List Char) : splitChar sep s ≠ [] := by
  match s with
  | [] => simp [splitChar]
  | c :: cs =>
    rw [splitChar]
    by_cases h : c = sep
    · simp [h]
    · rw [if_neg h]
      cases hs : splitChar sep cs <;> simp

theorem length_splitChar (sep : Char) (s : List Char) :
    (splitChar sep s).length = s.count sep + 1 := by
  induction s with
  | nil => rfl
  | cons c cs ih =>
    rw [splitChar]
    by_cases h : c = sep
    · subst h
      simp [List.count_cons, ih]
    · rw [if_neg h]
      cases hs : splitChar sep cs with
      | nil => exact absurd hs (splitChar_ne_nil sep cs)
      | cons x t =>
        rw [hs] at ih
        simp [List.count_cons, h, ← ih]

theorem joinWith_splitChar (sep : Char) (s : List Char) :
    joinWith [sep] (splitChar sep s) = s := by
  induction s with
  | nil => rfl
  | cons c cs ih =>
    rw [splitChar]
    by_cases h : c = sep
    · subst h
      rw [if_pos rfl, joinWith]
      cases hs : splitChar c cs with
      | nil => exact absurd hs (splitChar_ne_nil c cs)
      | cons x t =>
        rw [hs] at ih
        rw [joinWith] at ih
        simp [← ih, List.flatMap_cons]
    · rw [if_neg h]
      cases hs : splitChar sep cs with
      | nil => exact absurd hs (splitChar_ne_nil sep cs)
      | cons x t =>
        rw [hs] at ih
        rw [joinWith] at ih ⊢
        simp [← ih]

theorem replaceChar_append (pat : Char) (rep a b : List Char) :
    replaceChar pat rep (a ++ b) = replaceChar pat rep a ++ replaceChar pat rep b := by
  simp [replaceChar]

theorem escapeAppleScriptString_append (a b : List Char) :
    escapeAppleScriptString (a ++ b)
      = escapeAppleScriptString a ++ escapeAppleScriptString b := by
  simp [escapeAppleScriptString, replaceChar_append]

theorem escapeAppleScriptString_single (c : Char) :
    escapeAppleScriptString [c] = escChar c := by
  by_cases h1 : c = '\\'
  · subst h1; rfl
  by_cases h2 : c = '"'
  · subst h2; rfl
  by_cases h3 : c = '\t'
  · subst h3; rfl
  simp [escapeAppleScriptString, replaceChar, escChar, h1, h2, h3]

theorem escapeAppleScriptString_eq_flatMap (s : List Char) :
    escapeAppleScriptString s = s.flatMap escChar := by
  induction s with
  | nil => rfl
  | cons c cs ih =>
    have : c :: cs = [c] ++ cs := rfl
    rw [this, escapeAppleScriptString_append, escapeAppleScriptString_single, ih,
      List.flatMap_append]
    simp

theorem appleUnescape_flatMap_escChar (l : List Char) :
    appleUnescape (l.flatMap escChar) = l := by
  induction l with
  | nil => rfl
  | cons c cs ih =>
    rw [List.flatMap_cons]
    by_cases h1 : c = '\\'
    · subst h1
      show appleUnescape ('\\' :: '\\' :: cs.flatMap escChar) = _
      rw [appleUnescape]
      simp [ih]
    by_cases h2 : c = '"'
    · subst h2
      show appleUnescape ('\\' :: '"' :: cs.flatMap escChar) = _
      rw [appleUnescape]
      simp [ih]
    by_cases h3 : c = '\t'
    · subst h3
      show appleUnescape ('\\' :: 't' :: cs.flatMap escChar) = _
      rw [appleUnescape]
      simp [ih]
    rw [escChar, if_neg h1, if_neg h2, if_neg h3]
    cases hr : cs.flatMap escChar with
    | nil =>
      rw [hr] at ih
      simp [appleUnescape] at ih
      simp [appleUnescape, ← ih]
    | cons d rest =>
      rw [hr] at ih
      show appleUnescape (c :: d :: rest) = _
      rw [appleUnescape, if_neg h1, ih]

theorem roundtrip (l : List Char) :
    appleUnescape (escapeAppleScriptString l) = l := by
  rw [escapeAppleScriptString_eq_flatMap, appleUnescape_flatMap_escChar]

theorem renderTail_eq (rest : List (List Char)) :
    rest.flatMap
        (fun l => " & return & \"".toList ++ (escapeAppleScriptString l ++ ['"']))
      = ((rest.map escapeAppleScriptString).map (fun s => '"' :: (s ++ ['"']))).flatMap
          (fun x => " & return & ".toList ++ x) := by
  induction rest with
  | nil => rfl
  | cons l ls ih =>
    rw [List.flatMap_cons, List.map_cons, List.map_cons, List.flatMap_cons, ih,
      show " & return & \"".toList = " & return & ".toList ++ ['"'] by decide]
    simp [List.append_assoc]

theorem multiline_encoding_all (str : List Char) :
    (multilineSegments str).length = str.count '\n' + 1 ∧
    prepareMultilineCommand str
      = joinWith (" & return & ".toList)
          ((multilineSegments str).map (fun s => '"' :: (s ++ ['"']))) ∧
    (multilineSegments str).map appleUnescape = splitChar '\n' str ∧
    joinWith ['\n'] ((multilineSegments str).map appleUnescape) = str := by
  have hseg : (multilineSegments str).map appleUnescape = splitChar '\n' str := by
    rw [multilineSegments, List.map_map]
    have hcomp : appleUnescape ∘ escapeAppleScriptString = id :=
      funext fun l => roundtrip l
    rw [hcomp, List.map_id]
  refine ⟨?_, ?_, hseg, ?_⟩
  · rw [multilineSegments, List.length_map, length_splitChar]
  · cases hs : splitChar '\n' str with
    | nil => exact absurd hs (splitChar_ne_nil _ _)
    | cons l0 rest =>
      rw [prepareMultilineCommand, multilineSegments, hs]
      show ('"' :: (escapeAppleScriptString l0 ++ ['"']))
          ++ rest.flatMap
              (fun l => " & return & \"".toList ++ (escapeAppleScriptString l ++ ['"'])) = _
      rw [List.map_cons, List.map_cons, joinWith, renderTail_eq]
  · rw [hseg, joinWith_splitChar]

theorem escapeSingleLine_append (a b : List Char) :
    escapeSingleLine (a ++ b) = escapeSingleLine a ++ escapeSingleLine b := by
  simp [escapeSingleLine, replaceChar_append, replaceNonPrintable]

theorem escapeSingleLine_single (c : Char) :
    escapeSingleLine [c] = escSingleChar c := by
  by_cases h1 : c = '\\'
  · subst h1; rfl
  by_cases h2 : c = '"'
  · subst h2; rfl
  by_cases h3 : c = '\''
  · subst h3; rfl
  simp only [escapeSingleLine, replaceChar, replaceNonPrintable, List.flatMap_cons,
    List.flatMap_nil, List.append_nil, if_neg h1, if_neg h2, if_neg h3, escSingleChar]

theorem escapeSingleLine_eq_flatMap (s : List Char) :
    escapeSingleLine s = s.flatMap escSingleChar := by
  induction s with
  | nil => rfl
  | cons c cs ih =>
    have : c :: cs = [c] ++ cs := rfl
    rw [this, escapeSingleLine_append, escapeSingleLine_single, ih, List.flatMap_append]
    simp

theorem hexDigitsAux_length_le :
    ∀ (fuel n k : Nat), n < 16 ^ k → (hexDigitsAux fuel n).length ≤ k := by
  intro fuel
  induction fuel with
  | zero => intro n k _; simp [hexDigitsAux]
  | succ f ih =>
    intro n k hk
    rw [hexDigitsAux]
    by_cases hn : n = 0
    · simp [hn]
    · rw [if_neg hn]
      have hk1 : 1 ≤ k := by
        by_contra h0
        push_neg at h0
        interval_cases k
        simp at hk
        exact hn hk
      have hdiv : n / 16 < 16 ^ (k - 1) := by
        rw [Nat.div_lt_iff_lt_mul (by norm_num : 0 < 16)]
        calc n < 16 ^ k := hk
        _ = 16 ^ (k - 1) * 16 := by
          rw [← pow_succ]
          congr 1
          omega
      have := ih (n / 16) (k - 1) hdiv
      simp only [List.length_append, List.length_cons, List.length_nil]
      omega

theorem digitChar_mem_hexAlphabet (m : Nat) (hm : m < 16) :
    Nat.digitChar m ∈ "0123456789abcdef".toList := by
  interval_cases m <;> decide

theorem hexDigitsAux_subset_hexAlphabet :
    ∀ (fuel n : Nat), ∀ d ∈ hexDigitsAux fuel n, d ∈ "0123456789abcdef".toList := by
  intro fuel
  induction fuel with
  | zero => intro n d hd; simp [hexDigitsAux] at hd
  | succ f ih =>
    intro n d hd
    rw [hexDigitsAux] at hd
    by_cases hn : n = 0
    · simp [hn] at hd
    · rw [if_neg hn] at hd
      rcases List.mem_append.1 hd with hd | hd
      · exact ih (n / 16) d hd
      · rw [List.mem_singleton] at hd
        subst hd
        exact digitChar_mem_hexAlphabet (n % 16) (Nat.mod_lt n (by norm_num))

theorem jsHex_length_le (n : Nat) (h : n < 65536) : (jsHex n).length ≤ 4 := by
  rw [jsHex]
  by_cases hn : n = 0
  · simp [hn]
  · rw [if_neg hn]
    exact hexDigitsAux_length_le n n 4 (by norm_num at h ⊢; omega)

theorem jsHex_subset_hexAlphabet (n : Nat) :
    ∀ d ∈ jsHex n, d ∈ "0123456789abcdef".toList := by
  rw [jsHex]
  by_cases hn : n = 0
  · simp [hn]
  · rw [if_neg hn]
    exact hexDigitsAux_subset_hexAlphabet n n

theorem pad4_length (l : List Char) (h : l.length ≤ 4) : (pad4 l).length = 4 := by
  simp [pad4]
  omega

theorem pad4_subset (l : List Char) (hl : ∀ d ∈ l, d ∈ "0123456789abcdef".toList) :
    ∀ d ∈ pad4 l, d ∈ "0123456789abcdef".toList := by
  intro d hd
  rcases List.mem_append.1 hd with hd | hd
  · rw [List.eq_of_mem_replicate hd]
    decide
  · exact hl d hd

theorem single_line_escape_all :
    (∀ str : List Char, str.contains '\n' = false →
      escapeForAppleScript str = str.flatMap escSingleChar) ∧
    (∀ c : Char, ¬ (32 ≤ c.toNat ∧ c.toNat ≤ 126) → c.toNat < 65536 →
      escSingleChar c = '\\' :: 'u' :: pad4 (jsHex c.toNat) ∧
      (pad4 (jsHex c.toNat)).length = 4 ∧
      ∀ d ∈ pad4 (jsHex c.toNat), d ∈ "0123456789abcdef".toList) := by
  constructor
  · intro str h
    rw [escapeForAppleScript, if_neg (by rw [h]; exact Bool.false_ne_true),
      escapeSingleLine_eq_flatMap]
  · intro c hc hbmp
    have h1 : c ≠ '\\' := fun he => hc (by rw [he]; decide)
    have h2 : c ≠ '"' := fun he => hc (by rw [he]; decide)
    have h3 : c ≠ '\'' := fun he => hc (by rw [he]; decide)
    refine ⟨?_, pad4_length _ (jsHex_length_le _ hbmp), pad4_subset _ (jsHex_subset_hexAlphabet _)⟩
    rw [escSingleChar, if_neg h1, if_neg h2, if_neg h3, if_neg hc]

/-- C6: for every input string with `k` line breaks the multi-line encoder
produces `k + 1` quoted segments joined by exactly `k` concatenation
operators (one per line break), and a compliant host that unescapes each
quoted segment and joins the results with its native line-break value
reproduces exactly the original line sequence, hence the original string. -/
theorem multiline_encoding_joins_and_roundtrip (str : List Char) :
    (multilineSegments str).length = str.count '\n' + 1 ∧
    prepareMultilineCommand str
      = joinWith (" & return & ".toList)
          ((multilineSegments str).map (fun s => '"' :: (s ++ ['"']))) ∧
    (multilineSegments str).map appleUnescape = splitChar '\n' str ∧
    joinWith ['\n'] ((multilineSegments str).map appleUnescape) = str :=
  multiline_encoding_all str

/-- C7: on newline-free input the escaper acts independently on every
character — doubling backslashes, backslash-prefixing double quotes,
replacing single quotes by the close-escape-reopen sequence, turning every
character outside printable ASCII into a `\uXXXX` escape and passing all
other characters through — and each numeric escape for a basic-plane
character has exactly 4 lower-case zero-padded hex digits. -/
theorem single_line_escape (str : List Char) (h : str.contains '\n' = false) :
    escapeForAppleScript str = str.flatMap escSingleChar ∧
    (∀ c : Char, ¬ (32 ≤ c.toNat ∧ c.toNat ≤ 126) → c.toNat < 65536 →
      escSingleChar c = '\\' :: 'u' :: pad4 (jsHex c.toNat) ∧
      (pad4 (jsHex c.toNat)).length = 4 ∧
      ∀ d ∈ pad4 (jsHex c.toNat), d ∈ "0123456789abcdef".toList) :=
  ⟨single_line_escape_all.1 str h, fun c => single_line_escape_all.2 c⟩

/-- Witness for C7: a concrete single-line string with a backslash, both
quote kinds and the non-ASCII character `é` (code 233). -/
theorem single_line_escape_witness :
    escapeForAppleScript ("ab\"c'd\\x".toList)
        = ("ab\"c'd\\x".toList).flatMap escSingleChar ∧
    (escSingleChar 'é' = '\\' :: 'u' :: pad4 (jsHex 'é'.toNat) ∧
      (pad4 (jsHex 'é'.toNat)).length = 4 ∧
      ∀ d ∈ pad4 (jsHex 'é'.toNat), d ∈ "0123456789abcdef".toList) :=
  ⟨(single_line_escape ("ab\"c'd\\x".toList) (by decide)).1,
   (single_line_escape [] (by decide)).2 'é' (by decide) (by decide)⟩

theorem goB64_nil_cons (c : Char) (rest : List Char) (hc : isB64 c = false) :
    goB64 [] (c :: rest) = c :: goB64 [] rest := by
  conv_lhs => rw [goB64.eq_def]
  dsimp only
  rw [if_neg (by rw [hc]; exact Bool.false_ne_true)]
  rw [if_neg (by norm_num : ¬ ((100 : Nat) ≤ ([] : List Char).length))]
  rw [if_neg (by norm_num : ¬ ((100 ≤ ([] : List Char).length) ∧ c = '='))]
  rfl

theorem goB64_emit (pre : List Char) (hpre : ∀ c ∈ pre, isB64 c = false) :
    ∀ rest, goB64 [] (pre ++ rest) = pre ++ goB64 [] rest := by
  induction pre with
  | nil => intro rest; rfl
  | cons c pre' ih =>
    intro rest
    have hc : isB64 c = false := hpre c (List.mem_cons_self c pre')
    have hpre' : ∀ x ∈ pre', isB64 x = false :=
      fun x hx => hpre x (List.mem_cons_of_mem c hx)
    rw [List.cons_append, goB64_nil_cons c (pre' ++ rest) hc, ih hpre' rest]
    rfl

theorem goB64_id (s : List Char) (hs : ∀ c ∈ s, isB64 c = false) :
    goB64 [] s = s := by
  have := goB64_emit s hs []
  rw [List.append_nil] at this
  rw [this, goB64]
  norm_num

theorem goB64_accumulate (run : List Char) (hrun : ∀ c ∈ run, isB64 c = true) :
    ∀ acc rest, goB64 acc (run ++ rest) = goB64 (acc ++ run) rest := by
  induction run with
  | nil => intro acc rest; rw [List.nil_append, List.append_nil]
  | cons c run' ih =>
    intro acc rest
    have hc : isB64 c = true := hrun c (List.mem_cons_self c run')
    have hrun' : ∀ x ∈ run', isB64 x = true :=
      fun x hx => hrun x (List.mem_cons_of_mem c hx)
    rw [List.cons_append]
    conv_lhs => rw [goB64.eq_def]
    dsimp only
    rw [if_pos hc, ih hrun' (acc ++ [c]) rest]
    congr 1
    simp

theorem goB64_long_run (run suf : List Char) (hlen : 100 ≤ run.length)
    (hrun : ∀ c ∈ run, isB64 c = true) (hsuf : ∀ c ∈ suf, isB64 c = false) :
    goB64 [] (run ++ '=' :: '=' :: suf) = b64Placeholder ++ suf := by
  rw [goB64_accumulate run hrun [] ('=' :: '=' :: suf), List.nil_append]
  conv_lhs => rw [goB64.eq_def]
  dsimp only
  rw [if_neg (by decide : ¬ isB64 '=' = true), if_pos hlen, if_pos ⟨hlen, rfl⟩]
  show b64Placeholder ++ goB64 [] suf = _
  rw [goB64_id suf hsuf]

theorem goB64_short_run (run suf : List Char) (hlen : run.length < 100)
    (hsuf : ∀ c ∈ suf, isB64 c = false) :
    goB64 run suf = run ++ suf := by
  match suf with
  | [] =>
    rw [goB64, if_neg (by omega), List.append_nil]
  | c :: cs =>
    have hc : isB64 c = false := hsuf c (List.mem_cons_self c cs)
    have hcs : ∀ x ∈ cs, isB64 x = false :=
      fun x hx => hsuf x (List.mem_cons_of_mem c hx)
    conv_lhs => rw [goB64.eq_def]
    dsimp only
    rw [if_neg (by rw [hc]; exact Bool.false_ne_true),
      if_neg (by omega : ¬ ((100 : Nat) ≤ run.length)),
      if_neg (by omega : ¬ (100 ≤ run.length ∧ c = '=')),
      goB64_id cs hcs]

theorem isPrefixOf_cons_ne (c : Char) (cs : List Char) (h : c ≠ '\x1b') :
    imgcatHeader.isPrefixOf (c :: cs) = false := by
  rw [show imgcatHeader = '\x1b' :: "]1337;File=".toList from by decide]
  have hb : ('\x1b' == c) = false := by
    simp only [beq_eq_false_iff_ne, ne_eq]
    exact fun he => h he.symm
  simp [List.isPrefixOf, hb]

theorem goImg_id (fuel : Nat) (s : List Char) (hs : ∀ c ∈ s, c ≠ '\x1b') :
    goImg fuel s = s := by
  induction fuel generalizing s with
  | zero => rfl
  | succ f ih =>
    match s with
    | [] => rfl
    | c :: cs =>
      have hc : c ≠ '\x1b' := hs c (List.mem_cons_self c cs)
      rw [goImg, if_neg (by rw [isPrefixOf_cons_ne c cs hc]; exact Bool.false_ne_true)]
      rw [ih cs (fun x hx => hs x (List.mem_cons_of_mem c hx))]

theorem jsSliceFrom_neg {α : Type} (n : Nat) (l : List α) :
    jsSliceFrom (-(n : Int) - 1) l = l.drop (l.length - (n + 1)) := by
  rw [jsSliceFrom, if_pos (by omega)]
  congr 1
  omega

/-- C8: for every buffer and every requested count `0 < N`, the read
operation returns the trailing `N + 1` lines of the buffer joined by line
breaks (the off-by-one slice `lines.slice(-N - 1)`), the whole buffer when
`N + 1` covers every line, and with filtering enabled the same trailing
slice of the filtered buffer. -/
theorem read_trailing_lines (buffer : List Char) (n : Nat) (h : 0 < n) :
    ttyCall buffer (some n) false
      = joinWith ['\n']
          ((splitChar '\n' buffer).drop ((splitChar '\n' buffer).length - (n + 1))) ∧
    ((splitChar '\n' buffer).length ≤ n + 1 → ttyCall buffer (some n) false = buffer) ∧
    ttyCall buffer (some n) true
      = joinWith ['\n']
          ((splitChar '\n' (filterBase64Content buffer)).drop
            ((splitChar '\n' (filterBase64Content buffer)).length - (n + 1))) := by
  have hmain : ttyCall buffer (some n) false
      = joinWith ['\n']
          ((splitChar '\n' buffer).drop ((splitChar '\n' buffer).length - (n + 1))) := by
    simp only [ttyCall]
    rw [if_neg (by omega), jsSliceFrom_neg]
    simp
  refine ⟨hmain, ?_, ?_⟩
  · intro hlen
    rw [hmain]
    have : (splitChar '\n' buffer).length - (n + 1) = 0 := by omega
    rw [this, List.drop_zero, joinWith_splitChar]
  · simp only [ttyCall]
    rw [if_neg (by omega), jsSliceFrom_neg]
    simp

/-- Witness for C8: with buffer `a\nb\nc\nd`, requesting 2 lines returns
the trailing 3, and requesting 5 returns the whole buffer. -/
theorem read_trailing_lines_witness :
    ttyCall ("a\nb\nc\nd".toList) (some 2) false
      = joinWith ['\n']
          ((splitChar '\n' ("a\nb\nc\nd".toList)).drop
            ((splitChar '\n' ("a\nb\nc\nd".toList)).length - (2 + 1))) ∧
    ttyCall ("a\nb\nc\nd".toList) (some 5) false = "a\nb\nc\nd".toList :=
  ⟨(read_trailing_lines ("a\nb\nc\nd".toList) 2 (by decide)).1,
   (read_trailing_lines ("a\nb\nc\nd".toList) 5 (by decide)).2.1 (by decide)⟩

theorem ne_esc_of_isB64 (c : Char) (h : isB64 c = true) : c ≠ '\x1b' := by
  intro he
  rw [he] at h
  exact absurd h (by decide)

/-- C9: `filterBase64Content` on text containing a 150-character
base64-alphabet run followed by `==` replaces the run together with its
padding by the single placeholder, while the surrounding non-base64
(escape-free) text is unchanged; a base64 run shorter than 100 characters
is left byte-for-byte intact. -/
theorem filter_base64_runs (pre run suf : List Char)
    (hrunlen : run.length = 150)
    (hrun : ∀ c ∈ run, isB64 c = true)
    (hpre : ∀ c ∈ pre, isB64 c = false ∧ c ≠ '\x1b')
    (hsuf : ∀ c ∈ suf, isB64 c = false ∧ c ≠ '\x1b') :
    filterBase64Content (pre ++ run ++ '=' :: '=' :: suf)
      = pre ++ b64Placeholder ++ suf ∧
    (∀ run2 : List Char, run2.length < 100 → (∀ c ∈ run2, isB64 c = true) →
      filterBase64Content (pre ++ run2 ++ suf) = pre ++ run2 ++ suf) := by
  have hpre1 : ∀ c ∈ pre, isB64 c = false := fun c hc => (hpre c hc).1
  have hsuf1 : ∀ c ∈ suf, isB64 c = false := fun c hc => (hsuf c hc).1
  have hph : ∀ c ∈ b64Placeholder, c ≠ '\x1b' := by decide
  constructor
  · have hb : goB64 [] (pre ++ run ++ '=' :: '=' :: suf)
        = pre ++ b64Placeholder ++ suf := by
      rw [List.append_assoc, goB64_emit pre hpre1,
        goB64_long_run run suf (by omega) hrun hsuf1, ← List.append_assoc]
    rw [filterBase64Content, hb]
    apply goImg_id
    intro c hc
    rcases List.mem_append.1 hc with hc | hc
    · rcases List.mem_append.1 hc with hc | hc
      · exact (hpre c hc).2
      · exact hph c hc
    · exact (hsuf c hc).2
  · intro run2 hlen2 hrun2
    have hb : goB64 [] (pre ++ run2 ++ suf) = pre ++ run2 ++ suf := by
      rw [List.append_assoc, goB64_emit pre hpre1,
        goB64_accumulate run2 hrun2 [] suf, List.nil_append,
        goB64_short_run run2 suf hlen2 hsuf1, ← List.append_assoc]
    rw [filterBase64Content, hb]
    apply goImg_id
    intro c hc
    rcases List.mem_append.1 hc with hc | hc
    · rcases List.mem_append.1 hc with hc | hc
      · exact (hpre c hc).2
      · exact ne_esc_of_isB64 c (hrun2 c hc)
    · exact (hsuf c hc).2

/-- Witness for C9 at concrete inputs: 150 `Q`s plus `==` between plain
text collapse to the placeholder; 50 `Q`s survive unchanged. -/
theorem filter_base64_runs_witness :
    filterBase64Content
        (">> ".toList ++ List.replicate 150 'Q' ++ '=' :: '=' :: " <<".toList)
      = ">> ".toList ++ b64Placeholder ++ " <<".toList ∧
    filterBase64Content (">> ".toList ++ List.replicate 50 'Q' ++ " <<".toList)
      = ">> ".toList ++ List.replicate 50 'Q' ++ " <<".toList :=
  ⟨(filter_base64_runs (">> ".toList) (List.replicate 150 'Q') (" <<".toList)
      (by simp) (fun c hc => by rw [List.eq_of_mem_replicate hc]; decide)
      (by decide) (by decide)).1,
   (filter_base64_runs (">> ".toList) (List.replicate 150 'Q') (" <<".toList)
      (by simp) (fun c hc => by rw [List.eq_of_mem_replicate hc]; decide)
      (by decide) (by decide)).2 (List.replicate 50 'Q') (by simp)
      (fun c hc => by rw [List.eq_of_mem_replicate hc]; decide)⟩

/-- Counterexample to C1: in the dispatcher of `src/index.ts`, omitting
`ttyPath` yields the fixed device path `/dev/ttys001`, so the resolved
session reference is `byPath "/dev/ttys001"` — a fixed path, not the
current session. -/
theorem omitted_tty_targets_fixed_path :
    sessionRefOf (ctorTarget (some (mainDispatchTty none)))
      = SessionRef.byPath ("/dev/ttys001".toList) ∧
    SessionRef.byPath ("/dev/ttys001".toList) ≠ SessionRef.current := by
  refine ⟨rfl, ?_⟩
  intro h
  exact absurd h (by decide)

/-- C1 as amended: the `src/index.ts` dispatcher resolves an omitted
`ttyPath` to the fixed default `/dev/ttys001`, while the repository's
alternate dispatcher variant passes the omission through and the
component constructors (`targetTtyPath || null`) then target the
current/focused session. -/
theorem omitted_tty_resolution :
    mainDispatchTty none = "/dev/ttys001".toList ∧
    sessionRefOf (ctorTarget (some (mainDispatchTty none)))
      = SessionRef.byPath ("/dev/ttys001".toList) ∧
    altDispatchTty none = none ∧
    sessionRefOf (ctorTarget (altDispatchTty none)) = SessionRef.current ∧
    sessionRefOf (ctorTarget none) = SessionRef.current :=
  ⟨rfl, rfl, rfl, rfl, rfl⟩

theorem isPrefixOf_append_self (b c : List Char) : b.isPrefixOf (b ++ c) = true := by
  induction b with
  | nil => simp [List.isPrefixOf]
  | cons x xs ih => simp [List.isPrefixOf, ih]

theorem containsSub_head (b c : List Char) : containsSub (b ++ c) b = true := by
  rw [containsSub, List.any_eq_true]
  exact ⟨b ++ c, (List.mem_tails _ _).2 (List.suffix_refl _),
    isPrefixOf_append_self b c⟩

theorem containsSub_append_middle (a b c : List Char) :
    containsSub (a ++ (b ++ c)) b = true := by
  rw [containsSub, List.any_eq_true]
  exact ⟨b ++ c, (List.mem_tails _ _).2 (List.suffix_append a (b ++ c)),
    isPrefixOf_append_self b c⟩

theorem findSession_eq_none (sessions : List ItermSession) (target : List Char)
    (h : ∀ s ∈ sessions, s.tty ≠ target) :
    findSession sessions target = none := by
  rw [findSession, List.find?_eq_none]
  intro s hs
  simp only [beq_eq_false_iff_ne, ne_eq, beq_iff_eq]
  exact h s hs

theorem notFound_contains_tag (target : List Char) :
    containsSub (notFoundText target) ("Session with TTY".toList) = true := by
  rw [notFoundText,
    show "Session with TTY ".toList = "Session with TTY".toList ++ [' '] from by decide]
  simp only [List.append_assoc]
  exact containsSub_head _ _

/-- C2, evaluated at the code's actual behaviour: for a device path
matching no open session, the buffer read succeeds, returning the text
`Session with TTY <path> not found` as if it were buffer contents
(its script uses `return`, not `error`, so the catch branch for that
message is dead), while the write and control-character operations do
fail with wrapped errors that carry the `Session with TTY` tag and the
requested path. -/
theorem unknown_tty_results (sessions : List ItermSession) (target : List Char)
    (h : ∀ s ∈ sessions, s.tty ≠ target) :
    retrieveBuffer sessions target = Except.ok (jsTrim (notFoundText target)) ∧
    (executeCommandResult sessions target
        = Except.error ("Failed to execute command: ".toList ++ notFoundText target) ∧
      containsSub ("Failed to execute command: ".toList ++ notFoundText target)
        ("Session with TTY".toList) = true ∧
      containsSub ("Failed to execute command: ".toList ++ notFoundText target)
        target = true) ∧
    (∃ msg, sendControlResult sessions target = Except.error msg ∧
      containsSub msg ("Session with TTY".toList) = true ∧
      containsSub msg target = true) := by
  have hf := findSession_eq_none sessions target h
  refine ⟨?_, ⟨?_, ?_, ?_⟩, ?_⟩
  · rw [retrieveBuffer, runRetrieveScript, hf]
  · simp only [executeCommandResult, runWriteScript, hf]
    rw [wrapCatch, if_pos (notFound_contains_tag target)]
  · rw [show "Failed to execute command: ".toList ++ notFoundText target
        = "Failed to execute command: ".toList
          ++ (("Session with TTY".toList ++ ([' '] ++ (target ++ " not found".toList))))
      from by
        rw [notFoundText,
          show "Session with TTY ".toList = "Session with TTY".toList ++ [' ']
            from by decide]
        simp [List.append_assoc]]
    exact containsSub_append_middle _ _ _
  · rw [show "Failed to execute command: ".toList ++ notFoundText target
        = ("Failed to execute command: ".toList ++ "Session with TTY ".toList)
          ++ (target ++ " not found".toList)
      from by rw [notFoundText]; simp [List.append_assoc]]
    exact containsSub_append_middle _ _ _
  · have htag : containsSub
        ("Session with TTY ".toList ++ target ++ " not found.".toList)
        ("Session with TTY".toList) = true := by
      rw [show "Session with TTY ".toList = "Session with TTY".toList ++ [' ']
          from by decide]
      simp only [List.append_assoc]
      exact containsSub_head _ _
    refine ⟨"Failed to send control character: ".toList
        ++ ("Session with TTY ".toList ++ target ++ " not found.".toList), ?_, ?_, ?_⟩
    · simp only [sendControlResult, runControlScript, hf]
      rw [wrapCatch, if_pos htag]
    · rw [show "Failed to send control character: ".toList
          ++ ("Session with TTY ".toList ++ target ++ " not found.".toList)
          = "Failed to send control character: ".toList
            ++ ("Session with TTY".toList ++ ([' '] ++ (target ++ " not found.".toList)))
        from by
          rw [show "Session with TTY ".toList = "Session with TTY".toList ++ [' ']
              from by decide]
          simp [List.append_assoc]]
      exact containsSub_append_middle _ _ _
    · rw [show "Failed to send control character: ".toList
          ++ ("Session with TTY ".toList ++ target ++ " not found.".toList)
          = ("Failed to send control character: ".toList ++ "Session with TTY ".toList)
            ++ (target ++ " not found.".toList)
        from by simp [List.append_assoc]]
      exact containsSub_append_middle _ _ _

/-- Witness for C2: with one session open on `/dev/ttys001`, reading
`/dev/ttys999` succeeds with the not-found text; with no sessions the raw
message is returned verbatim. -/
theorem unknown_tty_results_witness :
    retrieveBuffer [ItermSession.mk ("/dev/ttys001".toList) ("hi".toList)]
        ("/dev/ttys999".toList)
      = Except.ok (jsTrim (notFoundText ("/dev/ttys999".toList))) ∧
    retrieveBuffer [] ("/dev/ttys999".toList)
      = Except.ok ("Session with TTY /dev/ttys999 not found".toList) := by
  constructor
  · exact (unknown_tty_results
      [ItermSession.mk ("/dev/ttys001".toList) ("hi".toList)]
      ("/dev/ttys999".toList) (by decide)).1
  · have := (unknown_tty_results [] ("/dev/ttys999".toList)
      (by intro s hs; simp at hs)).1
    rw [this]
    rfl

end ItermMcp
